import Mathlib

/-!
Verification of the core decision logic of a forex trading bot.

Shallow embedding of the signal-fusion rule, the risk gate, the exit
triggers, the state discretizer and the tabular Q-learning agent.
Python floats are modelled by rationals (with an explicit NaN
constructor where NaN handling matters), Python dicts keyed by state
tuples by association lists, and raised exceptions by `Except`.
-/

namespace ForexBot

/-! ## Signal fusion (main.py, run_trading_engine)

The fusion of strategy signal, ML signal, RL action and sentiment score:
`final_sig = 0; if sentiment > -0.3 and (ml_sig == rl_act != 0 or
ml_sig == strat_sig != 0): final_sig = ml_sig`.  Python's chained
comparison `a == b != 0` means `a == b and b != 0`. -/

def fuse (strat_sig ml_sig rl_act : ℤ) (sentiment : ℚ) : ℤ :=
  if sentiment > -3/10 ∧
      ((ml_sig = rl_act ∧ rl_act ≠ 0) ∨ (ml_sig = strat_sig ∧ strat_sig ≠ 0)) then
    ml_sig
  else 0

/-! ## Risk gate (risk_management.py)

`position_size(equity, atr_value, risk_per_trade)` returns 0 when
`atr_value <= 0 or equity <= 0`, otherwise
`round(equity * risk_per_trade / atr_value, 2)`.  Python's `round`
rounds half to even, modelled exactly on rationals. -/

def roundHalfEven (q : ℚ) : ℤ :=
  if q - ⌊q⌋ < 1/2 then ⌊q⌋
  else if 1/2 < q - ⌊q⌋ then ⌊q⌋ + 1
  else if ⌊q⌋ % 2 = 0 then ⌊q⌋ else ⌊q⌋ + 1

def round2 (q : ℚ) : ℚ := (roundHalfEven (q * 100) : ℚ) / 100

/-- Default `risk_per_trade` (config.py `MAX_RISK_PER_TRADE = 0.02`). -/
def MAX_RISK_PER_TRADE : ℚ := 2/100

def position_size (equity atr_value risk_per_trade : ℚ) : ℚ :=
  if atr_value ≤ 0 ∨ equity ≤ 0 then 0
  else round2 (equity * risk_per_trade / atr_value)

/-! ## Exit triggers (exit_strategy.py and main.py)

Times are modelled as rationals measured in seconds.
`check_time_exit` is `elapsed.total_seconds() > MAX_HOLD_TIME_MINUTES * 60`
with `MAX_HOLD_TIME_MINUTES = 120` (config.py).  The stop-loss /
take-profit booleans in `run_trading_engine` are
`sl = (exec_exit - entry_price)/entry_price <= -2*atr/entry_price` and
`tp = (exec_exit - entry_price)/entry_price >= 2*atr/entry_price`,
and the trade closes when `sl or tp or tte`. -/

def MAX_HOLD_TIME_MINUTES : ℚ := 120

def check_time_exit (entry_time current_time : ℚ) : Prop :=
  current_time - entry_time > MAX_HOLD_TIME_MINUTES * 60

instance (e c : ℚ) : Decidable (check_time_exit e c) := by
  unfold check_time_exit; infer_instance

def sl_trigger (entry_price exec_exit atr : ℚ) : Prop :=
  (exec_exit - entry_price) / entry_price ≤ (-2) * atr / entry_price

def tp_trigger (entry_price exec_exit atr : ℚ) : Prop :=
  (exec_exit - entry_price) / entry_price ≥ 2 * atr / entry_price

def closeTriggered (entry_price exec_exit atr entry_time now : ℚ) : Prop :=
  sl_trigger entry_price exec_exit atr ∨ tp_trigger entry_price exec_exit atr ∨
    check_time_exit entry_time now

/-- Modelled from the spec: the direction-aware stop-loss trigger of §4.6,
"adverse move ≥ 2×ATR against entry", for a position of direction `d`. -/
def spec_stop_loss (d : ℤ) (entry_price exit_price atr : ℚ) : Prop :=
  (d : ℚ) * (exit_price - entry_price) ≤ (-2) * atr

/-- Modelled from the spec: the direction-aware take-profit trigger of §4.6,
"favorable move ≥ 2×ATR", for a position of direction `d`. -/
def spec_take_profit (d : ℤ) (entry_price exit_price atr : ℚ) : Prop :=
  (d : ℚ) * (exit_price - entry_price) ≥ 2 * atr

/-- Modelled from the spec: a trade closes when at least one of the three
triggers of §4.6 holds (direction-aware stop-loss, direction-aware
take-profit, or max hold time elapsed). -/
def spec_close (d : ℤ) (entry_price exit_price atr entry_time now : ℚ) : Prop :=
  spec_stop_loss d entry_price exit_price atr ∨
    spec_take_profit d entry_price exit_price atr ∨
    check_time_exit entry_time now

/-! ## Python values (for state validation) and floats with NaN -/

/-- A Python float: either NaN or an exact rational value. -/
inductive PyFloat where
  | nan : PyFloat
  | val (q : ℚ) : PyFloat
deriving DecidableEq

/-- The Python values that can reach `validate_state`. -/
inductive PyVal where
  | pyInt (n : ℤ) : PyVal
  | pyFloat (x : PyFloat) : PyVal
  | pyStr (s : String) : PyVal
  | pyTuple (xs : List PyVal) : PyVal
  | pyNone : PyVal

/-! ## State discretizer (rl_agent.py, discretize_state)

`np.digitize([x], [b1, b2])[0]` with two increasing bins returns the
number of bins `<= x`, and places NaN after every bin (index 2).
`int(c) if c in (-1, 0, 1) else 0` passes a cross value through when it
compares equal to -1, 0 or 1 and coerces anything else (NaN included)
to 0. -/

def digitize2 (x : PyFloat) (b1 b2 : ℚ) : ℤ :=
  match x with
  | .nan => 2
  | .val q => if q < b1 then 0 else if q < b2 then 1 else 2

def coerceCross (x : PyFloat) : ℤ :=
  match x with
  | .nan => 0
  | .val q => if q = -1 then -1 else if q = 0 then 0 else if q = 1 then 1 else 0

def discretize_state (price_change_pct rsi ema_cross macd_cross volatility : PyFloat) :
    ℤ × ℤ × ℤ × ℤ × ℤ :=
  (digitize2 price_change_pct (-1/1000) (1/1000) - 1,
   digitize2 rsi 30 70,
   coerceCross ema_cross,
   coerceCross macd_cross,
   digitize2 volatility (5/10000) (15/10000))

/-! ## Q-learning agent (rl_agent.py)

The Q-table is a Python dict from state tuples to numpy rows of 3
floats (one per action in `ACTIONS = [-1, 0, 1]`), modelled as an
association list from `List ℤ` (a tuple of ints of any length —
`validate_state` does not check arity) to triples of rationals.
Randomness in `choose_action` is passed in explicitly: `rand` is the
`np.random.rand()` draw and `rpick` selects the element that
`np.random.choice(self.actions)` returns. -/

abbrev DState := List ℤ

abbrev QRow := ℚ × ℚ × ℚ

def ACTIONS : List ℤ := [-1, 0, 1]

def zeroRow : QRow := (0, 0, 0)

def findRow : List (DState × QRow) → DState → Option QRow
  | [], _ => none
  | (k, r) :: t, s => if k = s then some r else findRow t s

def setRow : List (DState × QRow) → DState → QRow → List (DState × QRow)
  | [], s, r => [(s, r)]
  | (k, v) :: t, s, r => if k = s then (s, r) :: t else (k, v) :: setRow t s r

/-- The value row of a state, treating an absent state as all zeros. -/
def rowOf (t : List (DState × QRow)) (s : DState) : QRow :=
  (findRow t s).getD zeroRow

def rowGet (r : QRow) (i : ℕ) : ℚ :=
  if i = 0 then r.1 else if i = 1 then r.2.1 else r.2.2

def rowSet (r : QRow) (i : ℕ) (v : ℚ) : QRow :=
  if i = 0 then (v, r.2.1, r.2.2) else if i = 1 then (r.1, v, r.2.2) else (r.1, r.2.1, v)

/-- `np.max` of a value row. -/
def maxRow (r : QRow) : ℚ := max r.1 (max r.2.1 r.2.2)

/-- The Q-value of `(s, i)` in table `t`, an absent state reading as 0. -/
def qValue (t : List (DState × QRow)) (s : DState) (i : ℕ) : ℚ :=
  rowGet (rowOf t s) i

/-- `np.argmax` over a row of 3: the first index attaining the maximum. -/
def argmaxIdx (r : QRow) : ℕ :=
  if r.2.1 ≤ r.1 ∧ r.2.2 ≤ r.1 then 0 else if r.2.2 ≤ r.2.1 then 1 else 2

/-- `self.actions.index(action)` for `ACTIONS = [-1, 0, 1]`; `none`
models the `ValueError` raised when the action is absent. -/
def actionIndex (act : ℤ) : Option ℕ :=
  if act = -1 then some 0 else if act = 0 then some 1 else if act = 1 then some 2 else none

/-- `self.actions[i]` for `ACTIONS = [-1, 0, 1]`. -/
def actionOf (i : ℕ) : ℤ := ACTIONS.getD i 0

structure Agent where
  alpha : ℚ
  gamma : ℚ
  epsilon : ℚ
  epsilon_min : ℚ
  epsilon_decay : ℚ
  q_table : List (DState × QRow)

/-- A fresh agent under config.py hyperparameters: ALPHA = 0.1,
GAMMA = 0.95, EPSILON_START = 0.5, EPSILON_MIN = 0.05,
EPSILON_DECAY = 0.995, empty Q-table. -/
def initAgent : Agent :=
  { alpha := 1/10, gamma := 19/20, epsilon := 1/2,
    epsilon_min := 1/20, epsilon_decay := 199/200, q_table := [] }

/-- `validate_state`: raises unless the argument is a tuple all of whose
elements are ints.  (The source checks no arity.) -/
def extractInts : List PyVal → Except String DState
  | [] => .ok []
  | .pyInt n :: rest => (extractInts rest).map (fun l => n :: l)
  | _ :: _ => .error "Each element in state must be int"

def validate_state : PyVal → Except String DState
  | .pyTuple xs => extractInts xs
  | _ => .error "State must be tuple"

/-- `get_qs`: looks the state up, materializing an all-zero row for an
absent state; returns the row together with the possibly-grown table. -/
def get_qs (t : List (DState × QRow)) (s : DState) : QRow × List (DState × QRow) :=
  match findRow t s with
  | some r => (r, t)
  | none => (zeroRow, t ++ [(s, zeroRow)])

/-- `choose_action`: validate, then with probability epsilon explore
(uniform random action, table untouched), else exploit via
`self.actions[np.argmax(self.get_qs(state))]`. -/
def choose_action (a : Agent) (st : PyVal) (rand : ℚ) (rpick : ℕ) :
    Except String (ℤ × Agent) :=
  match validate_state st with
  | .error e => .error e
  | .ok s =>
    if rand < a.epsilon then .ok (actionOf (rpick % 3), a)
    else
      let p := get_qs a.q_table s
      .ok (actionOf (argmaxIdx p.1), { a with q_table := p.2 })

/-- `learn`: validate both states, resolve the action index, read the
current Q, take the max of the next state's row, apply the TD update,
then decay epsilon when it still exceeds the floor. -/
def learn (a : Agent) (st : PyVal) (act : ℤ) (reward : ℚ) (next_st : PyVal) :
    Except String Agent :=
  match validate_state st with
  | .error e => .error e
  | .ok s =>
    match validate_state next_st with
    | .error e => .error e
    | .ok s' =>
      match actionIndex act with
      | none => .error "action is not in list"
      | some i =>
        let p1 := get_qs a.q_table s
        let current_q := rowGet p1.1 i
        let p2 := get_qs p1.2 s'
        let next_max_q := maxRow p2.1
        let target_q := reward + a.gamma * next_max_q
        let row_s := rowOf p2.2 s
        let t3 := setRow p2.2 s
          (rowSet row_s i (rowGet row_s i + a.alpha * (target_q - current_q)))
        let eps := if a.epsilon_min < a.epsilon then
            max (a.epsilon * a.epsilon_decay) a.epsilon_min
          else a.epsilon
        .ok { a with q_table := t3, epsilon := eps }

/-! ## Call traces over one agent -/

/-- The tuple `PyVal` of a list of ints. -/
def pyState (s : DState) : PyVal := .pyTuple (s.map PyVal.pyInt)

/-- One call made against the agent, with the random draws of a
`choose_action` call recorded explicitly. -/
inductive Op where
  | chooseOp (s : DState) (rand : ℚ) (rpick : ℕ) : Op
  | learnOp (s : DState) (act : ℤ) (reward : ℚ) (s' : DState) : Op

/-- Effect of one call on the agent; a raised exception (bad action)
leaves the agent unchanged, since `list.index` raises before any
mutation. -/
def step (a : Agent) : Op → Agent
  | .chooseOp s rand rpick =>
    match choose_action a (pyState s) rand rpick with
    | .ok p => p.2
    | .error _ => a
  | .learnOp s act r s' =>
    match learn a (pyState s) act r (pyState s') with
    | .ok a' => a'
    | .error _ => a

def run (a : Agent) (ops : List Op) : Agent := ops.foldl step a

/-- A well-formed argument to `validate_state`: a tuple all of whose
elements are Python ints (the source checks nothing more). -/
def wellFormedState : PyVal → Prop
  | .pyTuple xs => ∀ x ∈ xs, ∃ n, x = PyVal.pyInt n
  | _ => False

/-! ## Association-list and row lemmas -/

theorem findRow_append_of_some {t : List (DState × QRow)} {s : DState} {v : QRow}
    (h : findRow t s = some v) (l : List (DState × QRow)) :
    findRow (t ++ l) s = some v := by
  induction t with
  | nil => simp [findRow] at h
  | cons hd tl ih =>
    obtain ⟨k, r⟩ := hd
    by_cases hk : k = s
    · simp only [findRow, hk, if_pos rfl] at h ⊢
      simpa using h
    · simp only [List.cons_append, findRow, if_neg hk] at h ⊢
      exact ih h

theorem findRow_append_of_none {t : List (DState × QRow)} {s : DState}
    (h : findRow t s = none) (l : List (DState × QRow)) :
    findRow (t ++ l) s = findRow l s := by
  induction t with
  | nil => simp
  | cons hd tl ih =>
    obtain ⟨k, r⟩ := hd
    by_cases hk : k = s
    · simp [findRow, hk] at h
    · simp only [findRow, if_neg hk] at h
      simpa only [List.cons_append, findRow, if_neg hk] using ih h

theorem findRow_setRow_self (t : List (DState × QRow)) (s : DState) (r : QRow) :
    findRow (setRow t s r) s = some r := by
  induction t with
  | nil => simp [setRow, findRow]
  | cons hd tl ih =>
    obtain ⟨k, v⟩ := hd
    by_cases hk : k = s
    · simp [setRow, findRow, hk]
    · simpa [setRow, findRow, hk] using ih

theorem findRow_setRow_ne (t : List (DState × QRow)) {s s2 : DState} (r : QRow)
    (h : s ≠ s2) : findRow (setRow t s r) s2 = findRow t s2 := by
  induction t with
  | nil => simp [setRow, findRow, h]
  | cons hd tl ih =>
    obtain ⟨k, v⟩ := hd
    by_cases hk : k = s
    · subst hk; simp [setRow, findRow, h]
    · by_cases hk2 : k = s2
      · subst hk2; simp [setRow, findRow, hk]
      · simpa [setRow, findRow, hk, hk2] using ih

theorem get_qs_fst (t : List (DState × QRow)) (s : DState) :
    (get_qs t s).1 = rowOf t s := by
  unfold get_qs rowOf
  cases h : findRow t s <;> simp [h]

theorem findRow_get_qs_self (t : List (DState × QRow)) (s : DState) :
    findRow (get_qs t s).2 s = some (rowOf t s) := by
  unfold get_qs rowOf
  cases h : findRow t s with
  | none => simp [findRow_append_of_none h, findRow]
  | some r => simp [h]

theorem rowOf_get_qs (t : List (DState × QRow)) (s s2 : DState) :
    rowOf (get_qs t s).2 s2 = rowOf t s2 := by
  unfold get_qs
  cases h : findRow t s with
  | none =>
    by_cases hs : s = s2
    · subst hs
      simp [rowOf, findRow_append_of_none h, findRow, h]
    · cases h2 : findRow t s2 with
      | none =>
        simp [rowOf, findRow_append_of_none h2, findRow, hs, h2]
      | some v =>
        simp [rowOf, findRow_append_of_some h2, h2]
  | some r => simp

theorem get_qs_snd_cases (t : List (DState × QRow)) (s : DState) :
    (get_qs t s).2 = t ∨
      (findRow t s = none ∧ (get_qs t s).2 = t ++ [(s, zeroRow)]) := by
  unfold get_qs
  cases h : findRow t s with
  | none => exact Or.inr ⟨rfl, rfl⟩
  | some r => exact Or.inl rfl

theorem rowGet_rowSet_self (r : QRow) (i : ℕ) (v : ℚ) :
    rowGet (rowSet r i v) i = v := by
  unfold rowGet rowSet
  split_ifs <;> simp_all

theorem extractInts_map (s : DState) : extractInts (s.map PyVal.pyInt) = .ok s := by
  induction s with
  | nil => rfl
  | cons hd tl ih => simp [extractInts, ih, Except.map]

theorem validate_pyState (s : DState) : validate_state (pyState s) = .ok s := by
  simp [validate_state, pyState, extractInts_map]

/-! ## Characterization of `learn` and `choose_action` on valid states -/

theorem learn_ok_fields {a : Agent} {st nst : PyVal} {act : ℤ} {r : ℚ} {a' : Agent}
    (h : learn a st act r nst = .ok a') :
    a'.alpha = a.alpha ∧ a'.gamma = a.gamma ∧ a'.epsilon_min = a.epsilon_min ∧
      a'.epsilon_decay = a.epsilon_decay ∧
      a'.epsilon = (if a.epsilon_min < a.epsilon then
          max (a.epsilon * a.epsilon_decay) a.epsilon_min else a.epsilon) := by
  unfold learn at h
  cases hv : validate_state st <;> rw [hv] at h
  · exact absurd h (by simp)
  cases hv2 : validate_state nst <;> rw [hv2] at h
  · exact absurd h (by simp)
  cases hi : actionIndex act <;> rw [hi] at h
  · exact absurd h (by simp)
  · injection h with h
    subst h
    exact ⟨rfl, rfl, rfl, rfl, rfl⟩

theorem rowOf_setRow_self (t : List (DState × QRow)) (s : DState) (r : QRow) :
    rowOf (setRow t s r) s = r := by
  simp [rowOf, findRow_setRow_self]

theorem rowOf_setRow_ne (t : List (DState × QRow)) {s s2 : DState} (r : QRow)
    (h : s ≠ s2) : rowOf (setRow t s r) s2 = rowOf t s2 := by
  simp [rowOf, findRow_setRow_ne t r h]

theorem learn_ok_spec (a : Agent) (s s' : DState) (act : ℤ) (i : ℕ) (r : ℚ)
    (hi : actionIndex act = some i) :
    ∃ a', learn a (pyState s) act r (pyState s') = .ok a' ∧
      a'.alpha = a.alpha ∧ a'.gamma = a.gamma ∧ a'.epsilon_min = a.epsilon_min ∧
      a'.epsilon_decay = a.epsilon_decay ∧
      a'.epsilon = (if a.epsilon_min < a.epsilon then
          max (a.epsilon * a.epsilon_decay) a.epsilon_min else a.epsilon) ∧
      qValue a'.q_table s i =
        qValue a.q_table s i +
          a.alpha * ((r + a.gamma * maxRow (rowOf a.q_table s')) - qValue a.q_table s i) ∧
      (∀ s2, s2 ≠ s → rowOf a'.q_table s2 = rowOf a.q_table s2) := by
  simp only [learn, validate_pyState, hi]
  refine ⟨_, rfl, rfl, rfl, rfl, rfl, rfl, ?_, ?_⟩
  · simp only [qValue, rowOf_setRow_self, rowGet_rowSet_self, get_qs_fst, rowOf_get_qs]
  · intro s2 h2
    simp only [rowOf_setRow_ne _ _ (Ne.symm h2), rowOf_get_qs]

theorem choose_spec (a : Agent) (s : DState) (rand : ℚ) (rpick : ℕ) :
    ∃ act a', choose_action a (pyState s) rand rpick = .ok (act, a') ∧
      a'.alpha = a.alpha ∧ a'.gamma = a.gamma ∧ a'.epsilon = a.epsilon ∧
      a'.epsilon_min = a.epsilon_min ∧ a'.epsilon_decay = a.epsilon_decay ∧
      (∀ s2 r, findRow a.q_table s2 = some r → findRow a'.q_table s2 = some r) ∧
      (rand < a.epsilon → a'.q_table = a.q_table) ∧
      (a'.q_table = a.q_table ∨
        (findRow a.q_table s = none ∧ a'.q_table = a.q_table ++ [(s, zeroRow)])) := by
  simp only [choose_action, validate_pyState]
  by_cases hr : rand < a.epsilon
  · rw [if_pos hr]
    exact ⟨_, _, rfl, rfl, rfl, rfl, rfl, rfl, fun _ _ h => h, fun _ => rfl, Or.inl rfl⟩
  · rw [if_neg hr]
    refine ⟨_, _, rfl, rfl, rfl, rfl, rfl, rfl, ?_, fun h => absurd h hr, ?_⟩
    · intro s2 r h
      rcases get_qs_snd_cases a.q_table s with hc | ⟨_, hc⟩
      · rw [hc]; exact h
      · rw [hc]; exact findRow_append_of_some h _
    · rcases get_qs_snd_cases a.q_table s with hc | ⟨hn, hc⟩
      · exact Or.inl hc
      · exact Or.inr ⟨hn, hc⟩

/-! ## Effect of one trace step on the hyperparameters and epsilon -/

theorem step_fields (a : Agent) (op : Op) :
    (step a op).alpha = a.alpha ∧ (step a op).gamma = a.gamma ∧
      (step a op).epsilon_min = a.epsilon_min ∧
      (step a op).epsilon_decay = a.epsilon_decay := by
  cases op with
  | chooseOp s rand rpick =>
    obtain ⟨act, a', hok, ha, hg, he, hm, hd, -⟩ := choose_spec a s rand rpick
    simp [step, hok, ha, hg, hm, hd]
  | learnOp s act r s' =>
    cases h : learn a (pyState s) act r (pyState s') with
    | error e => simp [step, h]
    | ok a' =>
      obtain ⟨ha, hg, hm, hd, -⟩ := learn_ok_fields h
      simp [step, h, ha, hg, hm, hd]

theorem step_epsilon_bounds (a : Agent) (op : Op)
    (h0 : 0 ≤ a.epsilon_min) (h1 : a.epsilon_min ≤ a.epsilon)
    (hd1 : a.epsilon_decay ≤ 1) :
    a.epsilon_min ≤ (step a op).epsilon ∧ (step a op).epsilon ≤ a.epsilon := by
  cases op with
  | chooseOp s rand rpick =>
    obtain ⟨act, a', hok, -, -, he, -⟩ := choose_spec a s rand rpick
    simp only [step, hok]
    exact ⟨he ▸ h1, he.le⟩
  | learnOp s act r s' =>
    cases h : learn a (pyState s) act r (pyState s') with
    | error e =>
      simp only [step, h]
      exact ⟨h1, le_refl _⟩
    | ok a' =>
      obtain ⟨-, -, -, -, he⟩ := learn_ok_fields h
      simp only [step, h]
      rw [he]
      by_cases hlt : a.epsilon_min < a.epsilon
      · rw [if_pos hlt]
        have heps : 0 ≤ a.epsilon := le_trans h0 h1
        exact ⟨le_max_right _ _,
          max_le (by calc a.epsilon * a.epsilon_decay ≤ a.epsilon * 1 :=
                      mul_le_mul_of_nonneg_left hd1 heps
                    _ = a.epsilon := mul_one _) h1⟩
      · rw [if_neg hlt]
        exact ⟨h1, le_refl _⟩

/-! ## Claim theorems -/

/-- C1: with sentiment above the bearish threshold, the fusion policy
returns `ml_sig` exactly when the ML signal is nonzero and corroborated
by the RL action or by the strategy signal, and 0 otherwise; in
particular ml=1, rl=1, strategy=-1, sentiment=0 yields 1, and an ML
signal disagreeing with both other signals yields 0. -/
theorem fuse_ml_corroboration (strat_sig ml_sig rl_act : ℤ) (s : ℚ)
    (hs : s > -3/10) :
    (fuse strat_sig ml_sig rl_act s =
      if (ml_sig = rl_act ∧ ml_sig ≠ 0) ∨ (ml_sig = strat_sig ∧ ml_sig ≠ 0)
      then ml_sig else 0) ∧
    fuse (-1) 1 1 0 = 1 ∧
    (ml_sig ≠ rl_act → ml_sig ≠ strat_sig → fuse strat_sig ml_sig rl_act s = 0) := by
  have hiff : (s > -3/10 ∧
        ((ml_sig = rl_act ∧ rl_act ≠ 0) ∨ (ml_sig = strat_sig ∧ strat_sig ≠ 0))) ↔
      ((ml_sig = rl_act ∧ ml_sig ≠ 0) ∨ (ml_sig = strat_sig ∧ ml_sig ≠ 0)) := by
    constructor
    · rintro ⟨-, (⟨h1, h2⟩ | ⟨h1, h2⟩)⟩
      · subst h1; exact Or.inl ⟨rfl, h2⟩
      · subst h1; exact Or.inr ⟨rfl, h2⟩
    · rintro (⟨h1, h2⟩ | ⟨h1, h2⟩)
      · subst h1; exact ⟨hs, Or.inl ⟨rfl, h2⟩⟩
      · subst h1; exact ⟨hs, Or.inr ⟨rfl, h2⟩⟩
  refine ⟨?_, by norm_num [fuse], ?_⟩
  · unfold fuse
    rw [if_congr hiff rfl rfl]
  · intro hne1 hne2
    unfold fuse
    rw [if_neg]
    rintro ⟨-, (⟨h1, -⟩ | ⟨h1, -⟩)⟩
    · exact hne1 h1
    · exact hne2 h1

theorem fuse_ml_corroboration_witness : fuse (-1) 1 1 0 = 1 :=
  (fuse_ml_corroboration (-1) 1 1 0 (by norm_num)).2.1

/-- C2: the sentiment veto — whenever the sentiment score is at most
-0.3, the fusion policy returns 0, whatever the three signals are. -/
theorem fuse_sentiment_veto (strat_sig ml_sig rl_act : ℤ) (s : ℚ)
    (hs : s ≤ -3/10) : fuse strat_sig ml_sig rl_act s = 0 := by
  unfold fuse
  rw [if_neg]
  rintro ⟨h, -⟩
  exact absurd h (not_lt.mpr hs)

theorem fuse_sentiment_veto_witness : fuse 1 1 1 (-1/2) = 0 :=
  fuse_sentiment_veto 1 1 1 (-1/2) (by norm_num)

/-! ## Rounding lemmas for the risk gate -/

theorem roundHalfEven_bounds (q : ℚ) :
    ⌊q⌋ ≤ roundHalfEven q ∧ roundHalfEven q ≤ ⌊q⌋ + 1 := by
  unfold roundHalfEven
  split_ifs <;> omega

theorem roundHalfEven_mono {x y : ℚ} (h : x ≤ y) :
    roundHalfEven x ≤ roundHalfEven y := by
  rcases lt_or_eq_of_le (Int.floor_le_floor h : ⌊x⌋ ≤ ⌊y⌋) with hf | hf
  · calc roundHalfEven x ≤ ⌊x⌋ + 1 := (roundHalfEven_bounds x).2
      _ ≤ ⌊y⌋ := by omega
      _ ≤ roundHalfEven y := (roundHalfEven_bounds y).1
  · unfold roundHalfEven
    rw [← hf]
    have hxy : x - (⌊x⌋ : ℚ) ≤ y - (⌊x⌋ : ℚ) := by linarith
    split_ifs <;> first | rfl | omega | linarith

theorem round2_mono {x y : ℚ} (h : x ≤ y) : round2 x ≤ round2 y := by
  unfold round2
  have hm : roundHalfEven (x * 100) ≤ roundHalfEven (y * 100) :=
    roundHalfEven_mono (by linarith)
  have h100 : (0:ℚ) < 100 := by norm_num
  exact (div_le_div_iff_of_pos_right h100).mpr (by exact_mod_cast hm)

/-- C8: position sizing returns 0 on non-positive ATR or equity,
otherwise `(equity * risk_fraction) / atr` rounded to 2 decimals; the
two concrete guard examples hold, and the size is antitone in ATR. -/
theorem position_size_spec (equity atr_value risk_per_trade : ℚ)
    (hr : 0 ≤ risk_per_trade) :
    ((atr_value ≤ 0 ∨ equity ≤ 0) → position_size equity atr_value risk_per_trade = 0) ∧
    (0 < atr_value → 0 < equity →
      position_size equity atr_value risk_per_trade =
        round2 (equity * risk_per_trade / atr_value)) ∧
    position_size 10000 0 MAX_RISK_PER_TRADE = 0 ∧
    position_size (-5) 1 MAX_RISK_PER_TRADE = 0 ∧
    (∀ atr2, 0 < atr_value → atr_value ≤ atr2 →
      position_size equity atr2 risk_per_trade ≤
        position_size equity atr_value risk_per_trade) := by
  refine ⟨?_, ?_, by norm_num [position_size], by norm_num [position_size], ?_⟩
  · intro h
    unfold position_size
    rw [if_pos h]
  · intro h1 h2
    unfold position_size
    rw [if_neg (by push_neg; exact ⟨h1, h2⟩)]
  · intro atr2 h1 h12
    by_cases heq : equity ≤ 0
    · simp [position_size, heq]
    · push_neg at heq
      unfold position_size
      rw [if_neg (by push_neg; exact ⟨lt_of_lt_of_le h1 h12, heq⟩),
        if_neg (by push_neg; exact ⟨h1, heq⟩)]
      exact round2_mono
        (div_le_div_of_nonneg_left (mul_nonneg heq.le hr) h1 h12)

theorem position_size_spec_witness :
    position_size 10000 0 MAX_RISK_PER_TRADE = 0 ∧
      position_size (-5) 1 MAX_RISK_PER_TRADE = 0 :=
  ⟨(position_size_spec 1 1 MAX_RISK_PER_TRADE (by norm_num [MAX_RISK_PER_TRADE])).2.2.1,
   (position_size_spec 1 1 MAX_RISK_PER_TRADE (by norm_num [MAX_RISK_PER_TRADE])).2.2.2.1⟩

/-- C5: with a positive entry price and a position direction in
{-1, 1}, the engine's close condition (its direction-agnostic `sl` /
`tp` booleans, or the time exit) holds exactly when at least one of the
spec's three direction-aware triggers holds: the individual `sl` / `tp`
labels ignore the direction, but their disjunction agrees with the
direction-aware disjunction. -/
theorem close_triggers_iff (d : ℤ) (entry_price exit_price atr entry_time now : ℚ)
    (hd : d = 1 ∨ d = -1) (he : 0 < entry_price) :
    closeTriggered entry_price exit_price atr entry_time now ↔
      spec_close d entry_price exit_price atr entry_time now := by
  have hsl : sl_trigger entry_price exit_price atr ↔
      exit_price - entry_price ≤ (-2) * atr :=
    div_le_div_iff_of_pos_right he
  have htp : tp_trigger entry_price exit_price atr ↔
      2 * atr ≤ exit_price - entry_price :=
    div_le_div_iff_of_pos_right he
  unfold closeTriggered spec_close spec_stop_loss spec_take_profit
  rw [hsl, htp]
  rcases hd with rfl | rfl
  · constructor
    · rintro (h | h | h)
      · exact Or.inl (by push_cast; linarith)
      · exact Or.inr (Or.inl (by push_cast; linarith))
      · exact Or.inr (Or.inr h)
    · rintro (h | h | h)
      · exact Or.inl (by push_cast at h; linarith)
      · exact Or.inr (Or.inl (by push_cast at h; linarith))
      · exact Or.inr (Or.inr h)
  · constructor
    · rintro (h | h | h)
      · exact Or.inr (Or.inl (by push_cast; linarith))
      · exact Or.inl (by push_cast; linarith)
      · exact Or.inr (Or.inr h)
    · rintro (h | h | h)
      · exact Or.inr (Or.inl (by push_cast at h; linarith))
      · exact Or.inl (by push_cast at h; linarith)
      · exact Or.inr (Or.inr h)

theorem close_triggers_iff_witness :
    ((1:ℤ) = 1 ∨ (1:ℤ) = -1) ∧ (0:ℚ) < 1 ∧
      (closeTriggered 1 3 1 0 0 ↔ spec_close 1 1 3 1 0 0) :=
  ⟨Or.inl rfl, by norm_num, close_triggers_iff 1 1 3 1 0 0 (Or.inl rfl) (by norm_num)⟩

/-! ## Discretizer lemmas -/

theorem digitize2_mem (x : PyFloat) (b1 b2 : ℚ) :
    digitize2 x b1 b2 = 0 ∨ digitize2 x b1 b2 = 1 ∨ digitize2 x b1 b2 = 2 := by
  cases x with
  | nan => simp [digitize2]
  | val q =>
    simp only [digitize2]
    split_ifs <;> simp

theorem coerceCross_mem (x : PyFloat) :
    coerceCross x = -1 ∨ coerceCross x = 0 ∨ coerceCross x = 1 := by
  cases x with
  | nan => simp [coerceCross]
  | val q =>
    simp only [coerceCross]
    split_ifs <;> simp

/-- C7: the discretizer is total — every input (NaN included) yields a
5-tuple whose components lie in their enumerated domains — and the two
cross inputs are passed through when they already equal -1, 0 or 1 and
are coerced to 0 otherwise. -/
theorem discretize_state_total (pc rsi ema macd vol : PyFloat) :
    ((discretize_state pc rsi ema macd vol).1 = -1 ∨
      (discretize_state pc rsi ema macd vol).1 = 0 ∨
      (discretize_state pc rsi ema macd vol).1 = 1) ∧
    ((discretize_state pc rsi ema macd vol).2.1 = 0 ∨
      (discretize_state pc rsi ema macd vol).2.1 = 1 ∨
      (discretize_state pc rsi ema macd vol).2.1 = 2) ∧
    ((discretize_state pc rsi ema macd vol).2.2.1 = -1 ∨
      (discretize_state pc rsi ema macd vol).2.2.1 = 0 ∨
      (discretize_state pc rsi ema macd vol).2.2.1 = 1) ∧
    ((discretize_state pc rsi ema macd vol).2.2.2.1 = -1 ∨
      (discretize_state pc rsi ema macd vol).2.2.2.1 = 0 ∨
      (discretize_state pc rsi ema macd vol).2.2.2.1 = 1) ∧
    ((discretize_state pc rsi ema macd vol).2.2.2.2 = 0 ∨
      (discretize_state pc rsi ema macd vol).2.2.2.2 = 1 ∨
      (discretize_state pc rsi ema macd vol).2.2.2.2 = 2) ∧
    (∀ q : ℚ, (q = -1 ∨ q = 0 ∨ q = 1) → ema = PyFloat.val q →
      (discretize_state pc rsi ema macd vol).2.2.1 = ⌊q⌋) ∧
    ((∀ q : ℚ, ema = PyFloat.val q → q ≠ -1 ∧ q ≠ 0 ∧ q ≠ 1) →
      (discretize_state pc rsi ema macd vol).2.2.1 = 0) ∧
    (∀ q : ℚ, (q = -1 ∨ q = 0 ∨ q = 1) → macd = PyFloat.val q →
      (discretize_state pc rsi ema macd vol).2.2.2.1 = ⌊q⌋) ∧
    ((∀ q : ℚ, macd = PyFloat.val q → q ≠ -1 ∧ q ≠ 0 ∧ q ≠ 1) →
      (discretize_state pc rsi ema macd vol).2.2.2.1 = 0) := by
  refine ⟨?_, digitize2_mem rsi 30 70, coerceCross_mem ema, coerceCross_mem macd,
    digitize2_mem vol (5/10000) (15/10000), ?_, ?_, ?_, ?_⟩
  · have h := digitize2_mem pc (-1/1000) (1/1000)
    show digitize2 pc (-1/1000) (1/1000) - 1 = -1 ∨
      digitize2 pc (-1/1000) (1/1000) - 1 = 0 ∨
      digitize2 pc (-1/1000) (1/1000) - 1 = 1
    omega
  · rintro q (rfl | rfl | rfl) rfl <;> norm_num [discretize_state, coerceCross]
  · intro h
    cases ema with
    | nan => rfl
    | val q =>
      obtain ⟨h1, h2, h3⟩ := h q rfl
      show coerceCross (PyFloat.val q) = 0
      simp [coerceCross, h1, h2, h3]
  · rintro q (rfl | rfl | rfl) rfl <;> norm_num [discretize_state, coerceCross]
  · intro h
    cases macd with
    | nan => rfl
    | val q =>
      obtain ⟨h1, h2, h3⟩ := h q rfl
      show coerceCross (PyFloat.val q) = 0
      simp [coerceCross, h1, h2, h3]

theorem discretize_state_total_witness :
    (discretize_state (PyFloat.val 0) PyFloat.nan (PyFloat.val 1)
        (PyFloat.val (5/2)) (PyFloat.val (1/1000))).2.2.1 = ⌊(1:ℚ)⌋ :=
  (discretize_state_total (PyFloat.val 0) PyFloat.nan (PyFloat.val 1)
      (PyFloat.val (5/2)) (PyFloat.val (1/1000))).2.2.2.2.2.1
    1 (Or.inr (Or.inr rfl)) rfl

/-- C3: `learn` on valid states applies exactly the TD update
`Q(s,a) += α((r + γ max Q(s',·)) − Q(s,a))` with absent states read as
all-zero rows, then decays epsilon to `max(ε·decay, ε_min)`. -/
theorem learn_td_update (a : Agent) (s s' : DState) (act : ℤ) (i : ℕ) (r : ℚ)
    (hi : actionIndex act = some i)
    (h0 : 0 ≤ a.epsilon_min) (he : a.epsilon_min ≤ a.epsilon)
    (hd : a.epsilon_decay ≤ 1) :
    ∃ a', learn a (pyState s) act r (pyState s') = .ok a' ∧
      qValue a'.q_table s i =
        qValue a.q_table s i +
          a.alpha * ((r + a.gamma * maxRow (rowOf a.q_table s')) - qValue a.q_table s i) ∧
      a'.epsilon = max (a.epsilon * a.epsilon_decay) a.epsilon_min := by
  obtain ⟨a', hok, -, -, -, -, heps, hq, -⟩ := learn_ok_spec a s s' act i r hi
  refine ⟨a', hok, hq, ?_⟩
  rw [heps]
  by_cases hlt : a.epsilon_min < a.epsilon
  · rw [if_pos hlt]
  · rw [if_neg hlt]
    push_neg at hlt
    have heq : a.epsilon = a.epsilon_min := le_antisymm hlt he
    rw [heq, max_eq_right (mul_le_of_le_one_right h0 hd)]

theorem learn_td_update_witness :
    ∃ a', learn initAgent (pyState [0]) 1 (1/2) (pyState [1]) = .ok a' ∧
      qValue a'.q_table [0] 2 =
        qValue initAgent.q_table [0] 2 +
          initAgent.alpha *
            ((1/2 + initAgent.gamma * maxRow (rowOf initAgent.q_table [1])) -
              qValue initAgent.q_table [0] 2) ∧
      a'.epsilon = max (initAgent.epsilon * initAgent.epsilon_decay) initAgent.epsilon_min :=
  learn_td_update initAgent [0] [1] 1 2 (1/2) rfl (by norm_num [initAgent])
    (by norm_num [initAgent]) (by norm_num [initAgent])

/-- C4: over every call trace from an agent with ε ≥ ε_min ≥ 0 and
decay rate in (0,1), epsilon never increases and never drops below
ε_min, and a choose_action step never modifies epsilon at all. -/
theorem epsilon_trace_invariant (a : Agent) (ops : List Op)
    (h0 : 0 ≤ a.epsilon_min) (h1 : a.epsilon_min ≤ a.epsilon)
    (hd0 : 0 < a.epsilon_decay) (hd1 : a.epsilon_decay < 1) :
    (a.epsilon_min ≤ (run a ops).epsilon ∧ (run a ops).epsilon ≤ a.epsilon) ∧
    (∀ (b : Agent) (s : DState) (rand : ℚ) (rpick : ℕ),
      (step b (Op.chooseOp s rand rpick)).epsilon = b.epsilon) := by
  constructor
  · induction ops generalizing a with
    | nil => exact ⟨h1, le_refl _⟩
    | cons op rest ih =>
      have hstep := step_epsilon_bounds a op h0 h1 hd1.le
      obtain ⟨-, -, hm, hdec⟩ := step_fields a op
      have ih' := ih (step a op) (by rw [hm]; exact h0) (by rw [hm]; exact hstep.1)
        (by rw [hdec]; exact hd0) (by rw [hdec]; exact hd1)
      have hrun : run a (op :: rest) = run (step a op) rest := rfl
      rw [hrun]
      constructor
      · calc a.epsilon_min = (step a op).epsilon_min := hm.symm
          _ ≤ (run (step a op) rest).epsilon := ih'.1
      · exact le_trans ih'.2 hstep.2
  · intro b s rand rpick
    obtain ⟨act, a', hok, -, -, he, -⟩ := choose_spec b s rand rpick
    simp [step, hok, he]

theorem epsilon_trace_invariant_witness :
    (initAgent.epsilon_min ≤
        (run initAgent [Op.chooseOp [0] 0 0, Op.learnOp [0] 1 1 [0]]).epsilon ∧
      (run initAgent [Op.chooseOp [0] 0 0, Op.learnOp [0] 1 1 [0]]).epsilon ≤
        initAgent.epsilon) ∧
    (∀ (b : Agent) (s : DState) (rand : ℚ) (rpick : ℕ),
      (step b (Op.chooseOp s rand rpick)).epsilon = b.epsilon) :=
  epsilon_trace_invariant initAgent [Op.chooseOp [0] 0 0, Op.learnOp [0] 1 1 [0]]
    (by norm_num [initAgent]) (by norm_num [initAgent])
    (by norm_num [initAgent]) (by norm_num [initAgent])

/-- C10: `choose_action` on a valid state never changes an existing
Q-table entry nor any hyperparameter (α, γ, ε, ε_min, ε_decay); in the
exploration branch it leaves the table entirely unchanged, and its only
possible mutation is appending a fresh all-zero row for an unseen
state. -/
theorem choose_action_frame (a : Agent) (s : DState) (rand : ℚ) (rpick : ℕ) :
    ∃ act a', choose_action a (pyState s) rand rpick = .ok (act, a') ∧
      a'.alpha = a.alpha ∧ a'.gamma = a.gamma ∧ a'.epsilon = a.epsilon ∧
      a'.epsilon_min = a.epsilon_min ∧ a'.epsilon_decay = a.epsilon_decay ∧
      (∀ s2 r, findRow a.q_table s2 = some r → findRow a'.q_table s2 = some r) ∧
      (rand < a.epsilon → a'.q_table = a.q_table) ∧
      (a'.q_table = a.q_table ∨
        (findRow a.q_table s = none ∧ a'.q_table = a.q_table ++ [(s, zeroRow)])) :=
  choose_spec a s rand rpick

theorem choose_action_frame_witness :
    ∃ act a', choose_action initAgent (pyState [0]) 1 0 = .ok (act, a') ∧
      a'.alpha = initAgent.alpha ∧ a'.gamma = initAgent.gamma ∧
      a'.epsilon = initAgent.epsilon ∧
      a'.epsilon_min = initAgent.epsilon_min ∧
      a'.epsilon_decay = initAgent.epsilon_decay ∧
      (∀ s2 r, findRow initAgent.q_table s2 = some r →
        findRow a'.q_table s2 = some r) ∧
      (1 < initAgent.epsilon → a'.q_table = initAgent.q_table) ∧
      (a'.q_table = initAgent.q_table ∨
        (findRow initAgent.q_table [0] = none ∧
          a'.q_table = initAgent.q_table ++ [([0], zeroRow)])) :=
  choose_action_frame initAgent [0] 1 0

/-! ## Validation lemmas -/

theorem extractInts_cons_non_int {x : PyVal} (h : ∀ n, x ≠ PyVal.pyInt n)
    (tl : List PyVal) :
    extractInts (x :: tl) = .error "Each element in state must be int" := by
  cases x
  case pyInt n => exact absurd rfl (h n)
  all_goals rfl

theorem extractInts_ok_iff (xs : List PyVal) :
    (∃ l, extractInts xs = .ok l) ↔ ∀ x ∈ xs, ∃ n, x = PyVal.pyInt n := by
  induction xs with
  | nil => simp [extractInts]
  | cons hd tl ih =>
    cases hd
    case pyInt n =>
      simp only [extractInts, List.mem_cons]
      constructor
      · rintro ⟨l, hl⟩
        rintro x (rfl | hx)
        · exact ⟨n, rfl⟩
        · refine (ih.mp ?_) x hx
          cases h2 : extractInts tl with
          | error e => rw [h2] at hl; exact absurd hl (by simp [Except.map])
          | ok l2 => exact ⟨l2, rfl⟩
      · intro h
        obtain ⟨l, hl⟩ := ih.mpr (fun x hx => h x (Or.inr hx))
        exact ⟨n :: l, by rw [hl]; rfl⟩
    all_goals {
      constructor
      · rintro ⟨l, hl⟩
        rw [extractInts_cons_non_int (fun n h => by cases h) tl] at hl
        exact absurd hl (by simp)
      · intro h
        obtain ⟨n, hn⟩ := h _ (List.mem_cons_self _ _)
        exact absurd hn (by simp)
    }

theorem validate_ok_iff (v : PyVal) :
    (∃ s, validate_state v = .ok s) ↔ wellFormedState v := by
  cases v with
  | pyTuple xs => exact extractInts_ok_iff xs
  | pyInt n => simp [validate_state, wellFormedState]
  | pyFloat x => simp [validate_state, wellFormedState]
  | pyStr s => simp [validate_state, wellFormedState]
  | pyNone => simp [validate_state, wellFormedState]

/-- C6 (amended): `choose_action` and `learn` raise a validation error
exactly for arguments that are not tuples or contain a non-int element,
and succeed (no validation error) on every tuple of ints — tuple arity
is NOT checked, so well-formed means any length; the error value
propagates out of the call. -/
theorem state_validation (a : Agent) (v w : PyVal) (rand : ℚ) (rpick : ℕ)
    (act : ℤ) (r : ℚ) :
    (wellFormedState v → ∃ p, choose_action a v rand rpick = .ok p) ∧
    (¬ wellFormedState v → ∃ e, choose_action a v rand rpick = .error e) ∧
    (¬ wellFormedState v → ∃ e, learn a v act r w = .error e) ∧
    (¬ wellFormedState w → ∃ e, learn a v act r w = .error e) := by
  refine ⟨?_, ?_, ?_, ?_⟩
  · intro h
    obtain ⟨s, hs⟩ := (validate_ok_iff v).mpr h
    simp only [choose_action, hs]
    by_cases hr : rand < a.epsilon
    · rw [if_pos hr]; exact ⟨_, rfl⟩
    · rw [if_neg hr]; exact ⟨_, rfl⟩
  · intro h
    cases hv : validate_state v with
    | ok s => exact absurd ((validate_ok_iff v).mp ⟨s, hv⟩) h
    | error e =>
      simp only [choose_action, hv]
      exact ⟨e, rfl⟩
  · intro h
    cases hv : validate_state v with
    | ok s => exact absurd ((validate_ok_iff v).mp ⟨s, hv⟩) h
    | error e =>
      simp only [learn, hv]
      exact ⟨e, rfl⟩
  · intro h
    cases hv : validate_state v with
    | error e =>
      simp only [learn, hv]
      exact ⟨e, rfl⟩
    | ok s =>
      cases hw : validate_state w with
      | ok s2 => exact absurd ((validate_ok_iff w).mp ⟨s2, hw⟩) h
      | error e =>
        simp only [learn, hv, hw]
        exact ⟨e, rfl⟩

theorem state_validation_witness :
    ∃ p, choose_action initAgent (pyState [1, 2, 3, 4, 5]) 0 0 = .ok p :=
  (state_validation initAgent (pyState [1, 2, 3, 4, 5]) PyVal.pyNone 0 0 1 0).1
    (by
      simp only [pyState, wellFormedState, List.map]
      intro x hx
      fin_cases hx <;> exact ⟨_, rfl⟩)

/-- C6 counterexample: a 3-tuple of ints — malformed by the claim,
which demands a fixed arity of 5 — is accepted: `validate_state` checks
only tuple-ness and int elements, so `choose_action` returns an action
(here exploring, since rand = 0 < ε = 0.5) instead of raising a
validation error. -/
theorem arity_not_validated :
    choose_action initAgent (.pyTuple [.pyInt 0, .pyInt 0, .pyInt 0]) 0 0 =
      .ok (-1, initAgent) := by
  norm_num [choose_action, validate_state, extractInts, Except.map, initAgent,
    actionOf, ACTIONS]

/-! ## Repeated identical learn calls -/

/-- The agent after `k` identical `learn(s, act, r, s')` calls. -/
def repLearn (a : Agent) (s : DState) (act : ℤ) (r : ℚ) (s' : DState) (k : ℕ) : Agent :=
  run a (List.replicate k (Op.learnOp s act r s'))

theorem repLearn_succ (a : Agent) (s : DState) (act : ℤ) (r : ℚ) (s' : DState) (k : ℕ) :
    repLearn a s act r s' (k+1) =
      step (repLearn a s act r s' k) (Op.learnOp s act r s') := by
  unfold repLearn run
  rw [List.replicate_succ', List.foldl_append]
  rfl

theorem repLearn_inv (a : Agent) (s s' : DState) (act : ℤ) (i : ℕ) (r : ℚ)
    (hi : actionIndex act = some i) (hne : s' ≠ s) (k : ℕ) :
    (repLearn a s act r s' k).alpha = a.alpha ∧
    (repLearn a s act r s' k).gamma = a.gamma ∧
    rowOf (repLearn a s act r s' k).q_table s' = rowOf a.q_table s' := by
  induction k with
  | zero => exact ⟨rfl, rfl, rfl⟩
  | succ n ihn =>
    rw [repLearn_succ]
    obtain ⟨a', hok, hfa, hfg, -, -, -, -, hrow⟩ :=
      learn_ok_spec (repLearn a s act r s' n) s s' act i r hi
    simp only [step, hok]
    exact ⟨hfa.trans ihn.1, hfg.trans ihn.2.1, (hrow s' hne).trans ihn.2.2⟩

theorem learn_step_q (a : Agent) (s s' : DState) (act : ℤ) (i : ℕ) (r : ℚ)
    (hi : actionIndex act = some i) :
    qValue (step a (Op.learnOp s act r s')).q_table s i =
      qValue a.q_table s i +
        a.alpha * ((r + a.gamma * maxRow (rowOf a.q_table s')) - qValue a.q_table s i) := by
  obtain ⟨a', hok, -, -, -, -, -, hq, -⟩ := learn_ok_spec a s s' act i r hi
  simp only [step, hok]
  exact hq

/-- C9 (amended): with `s' ≠ s` and α ∈ (0,1), repeated identical
`learn(s, act, r, s')` calls contract `Q(s, act)` geometrically, with
factor `1 − α`, toward the fixed point `r + γ · max Q(s', ·)` — the
distance to that fixed point never grows, so the iteration cannot
diverge.  The fixed point is `r + γ·max Q(s',·)`, not `r/(1−γ)` in
general. -/
theorem learn_repeat_contraction (a : Agent) (s s' : DState) (act : ℤ) (i : ℕ)
    (r : ℚ) (n : ℕ)
    (hi : actionIndex act = some i) (hne : s' ≠ s)
    (ha0 : 0 < a.alpha) (ha1 : a.alpha < 1) :
    qValue (repLearn a s act r s' (n+1)).q_table s i -
        (r + a.gamma * maxRow (rowOf a.q_table s')) =
      (1 - a.alpha) *
        (qValue (repLearn a s act r s' n).q_table s i -
          (r + a.gamma * maxRow (rowOf a.q_table s'))) ∧
    |qValue (repLearn a s act r s' (n+1)).q_table s i -
        (r + a.gamma * maxRow (rowOf a.q_table s'))| ≤
      |qValue (repLearn a s act r s' n).q_table s i -
        (r + a.gamma * maxRow (rowOf a.q_table s'))| := by
  obtain ⟨hfa, hfg, hrow⟩ := repLearn_inv a s s' act i r hi hne n
  have hstep : qValue (repLearn a s act r s' (n+1)).q_table s i =
      qValue (repLearn a s act r s' n).q_table s i +
        a.alpha * ((r + a.gamma * maxRow (rowOf a.q_table s')) -
          qValue (repLearn a s act r s' n).q_table s i) := by
    rw [repLearn_succ, learn_step_q _ s s' act i r hi, hfa, hfg, hrow]
  have hcontract : qValue (repLearn a s act r s' (n+1)).q_table s i -
      (r + a.gamma * maxRow (rowOf a.q_table s')) =
      (1 - a.alpha) * (qValue (repLearn a s act r s' n).q_table s i -
        (r + a.gamma * maxRow (rowOf a.q_table s'))) := by
    rw [hstep]; ring
  refine ⟨hcontract, ?_⟩
  rw [hcontract, abs_mul, abs_of_nonneg (by linarith : (0:ℚ) ≤ 1 - a.alpha)]
  exact mul_le_of_le_one_left (abs_nonneg _) (by linarith)

theorem learn_repeat_contraction_witness :
    qValue (repLearn initAgent [0] (-1) 1 [1] 1).q_table [0] 0 -
        (1 + initAgent.gamma * maxRow (rowOf initAgent.q_table [1])) =
      (1 - initAgent.alpha) *
        (qValue (repLearn initAgent [0] (-1) 1 [1] 0).q_table [0] 0 -
          (1 + initAgent.gamma * maxRow (rowOf initAgent.q_table [1]))) ∧
    |qValue (repLearn initAgent [0] (-1) 1 [1] 1).q_table [0] 0 -
        (1 + initAgent.gamma * maxRow (rowOf initAgent.q_table [1]))| ≤
      |qValue (repLearn initAgent [0] (-1) 1 [1] 0).q_table [0] 0 -
        (1 + initAgent.gamma * maxRow (rowOf initAgent.q_table [1]))| :=
  learn_repeat_contraction initAgent [0] [1] (-1) 0 1 0 rfl (by decide)
    (by norm_num [initAgent]) (by norm_num [initAgent])

/-- An agent reachable from a fresh one by a single `learn` call that
gave the row of state `(1,)` the value 1 at action -1. -/
def primedAgent : Agent :=
  { alpha := 1/10, gamma := 19/20, epsilon := 199/400, epsilon_min := 1/20,
    epsilon_decay := 199/200, q_table := [([1], (1, 0, 0)), ([2], zeroRow)] }

def primedAgent2 : Agent :=
  { alpha := 1/10, gamma := 19/20, epsilon := 39601/80000, epsilon_min := 1/20,
    epsilon_decay := 199/200,
    q_table := [([1], (1, 0, 0)), ([2], zeroRow), ([0], (19/200, 0, 0))] }

def primedAgent3 : Agent :=
  { alpha := 1/10, gamma := 19/20, epsilon := 7880599/16000000, epsilon_min := 1/20,
    epsilon_decay := 199/200,
    q_table := [([1], (1, 0, 0)), ([2], zeroRow), ([0], (361/2000, 0, 0))] }

/-- C9 counterexample: from the fresh config agent, one `learn` call
primes the row of next-state `(1,)` with max value 1; then two repeated
identical calls `learn((0,), -1, 0, (1,))` move `Q((0,), -1)` from 0 to
19/200 to 361/2000 — each call strictly INCREASES the distance to
`reward/(1−γ) = 0/(1−0.95) = 0`, refuting the claimed monotone approach
to that value (the actual fixed point is `0 + γ·1 = 0.95`). -/
theorem learn_away_from_claimed_fixed_point :
    learn initAgent (pyState [1]) (-1) 10 (pyState [2]) = .ok primedAgent ∧
    learn primedAgent (pyState [0]) (-1) 0 (pyState [1]) = .ok primedAgent2 ∧
    learn primedAgent2 (pyState [0]) (-1) 0 (pyState [1]) = .ok primedAgent3 ∧
    qValue primedAgent.q_table [0] 0 = 0 ∧
    qValue primedAgent2.q_table [0] 0 = 19/200 ∧
    qValue primedAgent3.q_table [0] 0 = 361/2000 ∧
    (0:ℚ) / (1 - primedAgent.gamma) = 0 ∧
    |(19/200:ℚ) - 0| > |(0:ℚ) - 0| ∧
    |(361/2000:ℚ) - 0| > |(19/200:ℚ) - 0| := by
  refine ⟨?_, ?_, ?_, ?_, ?_, ?_, ?_, ?_, ?_⟩ <;>
    norm_num [learn, initAgent, primedAgent, primedAgent2, primedAgent3, pyState,
      validate_state, extractInts, Except.map, actionIndex, get_qs, findRow,
      setRow, rowOf, rowGet, rowSet, maxRow, zeroRow, qValue, abs_of_nonneg]

end ForexBot
